import Mathlib

/-!
Verification of the chunked-uploader client engine (`src/UploaderClient.ts` and
`src/helpers/formatHash.ts`).  The TypeScript source is shallowly embedded:
JS numbers are modelled as `Nat`/`Int` (with the `NaN`/`Infinity` cases of
`Math.ceil` made explicit), fallible operations return `Except`, and the
stateful parts of the client (throttle bookkeeping, abort flag, per-chunk
progress vector) are explicit state passed through pure functions.
-/

namespace ChunkedUploader

/-- States of `UploadState` from `types.ts`. -/
inductive UploadState
  | Initializing
  | Uploading
  | Finishing
  | Error
  | Done
  deriving DecidableEq, Repr

/-- Snapshot handed to progress observers (`ProgressState` in `types.ts`);
the optional `currentChunkSize` extra property is ignored by every consumer
in the source and is omitted. -/
structure ProgressState where
  uploaded : Nat
  total : Nat
  state : UploadState
  deriving DecidableEq, Repr

/-- From `helpers/formatHash.ts`: strip a matching `<alg>=` prefix from the
hash reported by the finish endpoint.  `hash.startsWith(prefix)` and
`hash.slice(prefix.length)` are modelled on the underlying character
lists. -/
def formatHashFromApi (hash : String) (alg : String) : String :=
  let p := alg ++ "="
  if p.data.isPrefixOf hash.data then ⟨hash.data.drop p.data.length⟩ else hash

/-- The JSON body of the finish endpoint's response, as read by
`finishAndVerify` (`data.hash`, `data.length`), together with the HTTP
status code. -/
structure FinishResponse where
  status : Nat
  hash : String
  length : Int
  deriving DecidableEq, Repr

/-- The distinct rejection causes of `finishAndVerify`, with the
expected/actual data each error message carries. -/
inductive FinishError
  | finishRequestFailed
  | noHash
  | lengthMismatch (expected got : Int)
  | checksumMismatch (expected got : String)
  deriving DecidableEq, Repr

/-- `finishAndVerify` (UploaderClient.ts lines 594-637): status gate, then
the JS-falsiness presence check `!data.hash || !data.length`, then the
length comparison, then the de-prefixed checksum comparison.  The source
binds `serverHash` before the length check; the computation is pure so it
is inlined here. -/
def finishAndVerify (resp : FinishResponse) (sha256 : String) (total : Int)
    (alg : String) : Except FinishError String :=
  if resp.status ≠ 200 then
    .error .finishRequestFailed
  else if resp.hash = "" ∨ resp.length = 0 then
    .error .noHash
  else if resp.length ≠ total then
    .error (.lengthMismatch total resp.length)
  else if formatHashFromApi resp.hash alg ≠ sha256 then
    .error (.checksumMismatch sha256 (formatHashFromApi resp.hash alg))
  else
    .ok (formatHashFromApi resp.hash alg)

/-- C2: `finishAndVerify` resolves exactly when the response carries a
(truthy) hash and length, the de-prefixed server hash equals the local
checksum, and the reported length equals the file size; with both fields
present, a wrong length yields the length-mismatch error (carrying expected
and actual lengths), a right length but wrong de-prefixed hash yields the
checksum-mismatch error (carrying expected and actual hashes), and the two
rejections are distinct values. -/
theorem finishAndVerify_roundtrip (resp : FinishResponse) (sha256 : String)
    (total : Int) (alg : String) :
    (∀ h : String, finishAndVerify resp sha256 total alg = .ok h ↔
      (resp.status = 200 ∧ resp.hash ≠ "" ∧ resp.length ≠ 0 ∧
        formatHashFromApi resp.hash alg = sha256 ∧ resp.length = total ∧
        h = sha256))
    ∧ (resp.status = 200 → resp.hash ≠ "" → resp.length ≠ 0 →
        resp.length ≠ total →
        finishAndVerify resp sha256 total alg =
          .error (.lengthMismatch total resp.length))
    ∧ (resp.status = 200 → resp.hash ≠ "" → resp.length ≠ 0 →
        resp.length = total → formatHashFromApi resp.hash alg ≠ sha256 →
        finishAndVerify resp sha256 total alg =
          .error (.checksumMismatch sha256 (formatHashFromApi resp.hash alg)))
    ∧ (∀ a b c d, FinishError.lengthMismatch a b ≠ FinishError.checksumMismatch c d) := by
  refine ⟨?_, ?_, ?_, ?_⟩
  · intro h
    unfold finishAndVerify
    split_ifs with h1 h2 h3 h4
    · simp only [reduceCtorEq, false_iff]
      exact fun hc => absurd hc.1 h1
    · simp only [reduceCtorEq, false_iff]
      intro hc
      rcases h2 with hh | hl
      · exact absurd hh hc.2.1
      · exact absurd hl hc.2.2.1
    · simp only [reduceCtorEq, false_iff]
      exact fun hc => absurd hc.2.2.2.2.1 h3
    · simp only [reduceCtorEq, false_iff]
      exact fun hc => absurd hc.2.2.2.1 h4
    · push_neg at h1 h2 h3 h4
      constructor
      · intro hok
        have hsh : formatHashFromApi resp.hash alg = h := by
          simpa using hok
        exact ⟨h1, h2.1, h2.2, h4, h3, by rw [← hsh, h4]⟩
      · intro hc
        rw [h4, hc.2.2.2.2.2]
  · intro hst hh hl hlen
    unfold finishAndVerify
    rw [if_neg (by simp [hst]), if_neg (by push_neg; exact ⟨hh, hl⟩),
      if_pos hlen]
  · intro hst hh hl hlen hhash
    unfold finishAndVerify
    rw [if_neg (by simp [hst]), if_neg (by push_neg; exact ⟨hh, hl⟩),
      if_neg (by simp [hlen]), if_pos hhash]
  · intro a b c d
    exact fun h => FinishError.noConfusion h

/-- Concrete instantiation of `finishAndVerify_roundtrip`: a matching
response verifies, a length of 6 instead of 5 is a length mismatch, and a
wrong hash with matching length is a checksum mismatch. -/
theorem finishAndVerify_roundtrip_witness :
    (finishAndVerify ⟨200, "h=abc", 5⟩ "abc" 5 "h" = .ok "abc") ∧
    (finishAndVerify ⟨200, "h=abc", 6⟩ "abc" 5 "h" =
      .error (.lengthMismatch 5 6)) ∧
    (finishAndVerify ⟨200, "h=xyz", 5⟩ "abc" 5 "h" =
      .error (.checksumMismatch "abc" "xyz")) := by
  refine ⟨?_, ?_, ?_⟩
  · exact ((finishAndVerify_roundtrip ⟨200, "h=abc", 5⟩ "abc" 5 "h").1 "abc").mpr
      ⟨rfl, by decide, by decide, by decide, rfl, rfl⟩
  · exact (finishAndVerify_roundtrip ⟨200, "h=abc", 6⟩ "abc" 5 "h").2.1 rfl
      (by decide) (by decide) (by decide)
  · have hf : formatHashFromApi "h=xyz" "h" = "xyz" := by decide
    have := (finishAndVerify_roundtrip ⟨200, "h=xyz", 5⟩ "abc" 5 "h").2.2.1 rfl
      (by decide) (by decide) rfl (by rw [hf]; decide)
    rw [hf] at this
    exact this

/-- C10: with a 200 finish response, a zero `length` or empty `hash` falls
into the JS-falsiness presence check and rejects with the missing-data
error, never with a mismatch error; consequently no finish response can
verify a file of total size 0. -/
theorem finishAndVerify_falsy_zero (resp : FinishResponse) (sha256 : String)
    (total : Int) (alg : String) :
    (resp.status = 200 → (resp.hash = "" ∨ resp.length = 0) →
      finishAndVerify resp sha256 total alg = .error .noHash)
    ∧ (∀ h : String, finishAndVerify resp sha256 0 alg ≠ .ok h) := by
  constructor
  · intro hst hfalsy
    unfold finishAndVerify
    rw [if_neg (by simp [hst]), if_pos hfalsy]
  · intro h
    unfold finishAndVerify
    split_ifs with h1 h2 h3 h4
    · simp
    · simp
    · simp
    · simp
    · push_neg at h2 h3
      exact absurd h3 h2.2

/-- Concrete instantiation of `finishAndVerify_falsy_zero`: the correct
finish response for an empty file (length 0, matching hash) rejects with
the missing-data error. -/
theorem finishAndVerify_falsy_zero_witness :
    finishAndVerify ⟨200, "h=abc", 0⟩ "abc" 0 "h" = .error .noHash :=
  (finishAndVerify_falsy_zero ⟨200, "h=abc", 0⟩ "abc" 0 "h").1 rfl (Or.inr rfl)

/-! ## Progress throttling (constructor lines 290-297, `reportProgress` lines 320-360) -/

/-- Optional throttle overrides read off the config via the loosely-typed
side channel; absent fields default below. -/
structure ThrottleConfig where
  progressReportIntervalMs : Option Int
  progressReportBytes : Option Int
  deriving DecidableEq, Repr

/-- `cfgAny.progressReportIntervalMs ?? 1000`. -/
def progressIntervalMs (cfg : ThrottleConfig) : Int :=
  cfg.progressReportIntervalMs.getD 1000

/-- `cfgAny.progressReportBytes ?? 1_000_000`. -/
def progressBytesThreshold (cfg : ThrottleConfig) : Int :=
  cfg.progressReportBytes.getD 1000000

/-- The client's throttle bookkeeping fields, updated only when a
notification was delivered without the callback throwing. -/
structure ThrottleState where
  lastProgressReportTime : Int
  lastReportedUploaded : Int
  deriving DecidableEq, Repr

/-- `lastProgress` plus the throttle bookkeeping. -/
structure ProgressCell where
  lastProgress : ProgressState
  throttle : ThrottleState
  deriving DecidableEq, Repr

/-- An observer callback; `.error` models a JS callback that throws. -/
abbrev Callback : Type := ProgressState → Except String Unit

/-- Membership in the `importantStates` set built at lines 330-335. -/
def isImportantState (s : UploadState) : Bool :=
  s == .Initializing || s == .Finishing || s == .Done || s == .Error

/-- The throttle gate `shouldReport` of lines 339-349: `bytesSinceLast` is
`Math.max(0, uploaded - lastReportedUploaded)` and both comparisons use
`>=`. -/
def shouldReport (cfg : ThrottleConfig) (ts : ThrottleState)
    (st : ProgressState) (force : Bool) (now : Int) : Bool :=
  force || isImportantState st.state ||
    decide (progressIntervalMs cfg ≤ now - ts.lastProgressReportTime) ||
    decide (progressBytesThreshold cfg ≤
      max 0 ((st.uploaded : Int) - ts.lastReportedUploaded))

/-- `reportProgress(state, force)` (lines 320-360): always record the
snapshot as `lastProgress`, return early without an observer, apply the
throttle gate, and write the bookkeeping only after the callback returned
without throwing.  The `Bool` result records whether the observer was
invoked. -/
def reportProgress (cfg : ThrottleConfig) (cb : Option Callback)
    (c : ProgressCell) (st : ProgressState) (force : Bool) (now : Int) :
    ProgressCell × Bool :=
  let c1 : ProgressCell := { c with lastProgress := st }
  match cb with
  | none => (c1, false)
  | some cb =>
    if shouldReport cfg c.throttle st force now then
      match cb st with
      | .ok _ => ({ c1 with throttle := ⟨now, (st.uploaded : Int)⟩ }, true)
      | .error _ => (c1, true)
    else (c1, false)

/-- C3: with a registered observer, `reportProgress` notifies exactly when
forced, or the state is one of Initializing, Finishing, Done, Error, or
the wall-clock time since the last delivered notification reaches the
configured minimum interval, or the byte increase since the last delivered
value reaches the configured minimum threshold; a suppressed call delivers
nothing and leaves the throttle bookkeeping untouched, a delivered call
with a non-throwing callback records its time and uploaded value, the
snapshot is always recorded, and absent configuration fields default to
1000 ms and 1,000,000 bytes. -/
theorem reportProgress_gate (cfg : ThrottleConfig) (cb : Callback)
    (c : ProgressCell) (st : ProgressState) (force : Bool) (now : Int) :
    ((reportProgress cfg (some cb) c st force now).2 = true ↔
      (force = true ∨ st.state = .Initializing ∨ st.state = .Finishing ∨
        st.state = .Done ∨ st.state = .Error ∨
        progressIntervalMs cfg ≤ now - c.throttle.lastProgressReportTime ∨
        progressBytesThreshold cfg ≤
          max 0 ((st.uploaded : Int) - c.throttle.lastReportedUploaded)))
    ∧ ((reportProgress cfg (some cb) c st force now).2 = false →
        (reportProgress cfg (some cb) c st force now).1.throttle = c.throttle)
    ∧ (∀ u, cb st = .ok u → (reportProgress cfg (some cb) c st force now).2 = true →
        (reportProgress cfg (some cb) c st force now).1.throttle =
          ⟨now, (st.uploaded : Int)⟩)
    ∧ ((reportProgress cfg (some cb) c st force now).1.lastProgress = st)
    ∧ ((reportProgress cfg none c st force now).2 = false)
    ∧ progressIntervalMs ⟨none, none⟩ = 1000
    ∧ progressBytesThreshold ⟨none, none⟩ = 1000000 := by
  have hinv : (reportProgress cfg (some cb) c st force now).2 =
      shouldReport cfg c.throttle st force now := by
    unfold reportProgress
    cases hg : shouldReport cfg c.throttle st force now with
    | false => simp [hg]
    | true => cases hcb : cb st <;> simp [hg, hcb]
  refine ⟨?_, ?_, ?_, ?_, ?_, rfl, rfl⟩
  · rw [hinv]
    obtain ⟨u, t, s⟩ := st
    unfold shouldReport isImportantState
    simp only [Bool.or_eq_true, beq_iff_eq, decide_eq_true_eq]
    cases s <;> (simp; try tauto)
  · intro hfalse
    rw [hinv] at hfalse
    unfold reportProgress
    rw [hfalse]
    simp
  · intro u hcb htrue
    rw [hinv] at htrue
    simp [reportProgress, htrue, hcb]
  · unfold reportProgress
    cases hg : shouldReport cfg c.throttle st force now
    · simp [hg]
    · cases hcb : cb st <;> simp [hg, hcb]
  · unfold reportProgress
    rfl

/-- Concrete instantiation of `reportProgress_gate` with default throttle
configuration: an unforced Uploading tick 1500 ms after the last delivered
notification passes the time gate. -/
theorem reportProgress_gate_witness :
    ((reportProgress ⟨none, none⟩ (some fun _ => .ok ())
        ⟨⟨0, 10, .Initializing⟩, ⟨0, 0⟩⟩ ⟨5, 10, .Uploading⟩ false 1500).2 = true ↔
      (false = true ∨ UploadState.Uploading = .Initializing ∨
        UploadState.Uploading = .Finishing ∨ UploadState.Uploading = .Done ∨
        UploadState.Uploading = .Error ∨
        progressIntervalMs ⟨none, none⟩ ≤ 1500 - (0 : Int) ∨
        progressBytesThreshold ⟨none, none⟩ ≤ max 0 ((5 : Int) - 0)))
    ∧ ((reportProgress ⟨none, none⟩ (some fun _ => .ok ())
        ⟨⟨0, 10, .Initializing⟩, ⟨0, 0⟩⟩ ⟨5, 10, .Uploading⟩ false 1500).2 = false →
        (reportProgress ⟨none, none⟩ (some fun _ => .ok ())
          ⟨⟨0, 10, .Initializing⟩, ⟨0, 0⟩⟩ ⟨5, 10, .Uploading⟩ false 1500).1.throttle = ⟨0, 0⟩)
    ∧ (∀ u, (fun (_ : ProgressState) => (Except.ok () : Except String Unit)) ⟨5, 10, .Uploading⟩ = .ok u →
        (reportProgress ⟨none, none⟩ (some fun _ => .ok ())
          ⟨⟨0, 10, .Initializing⟩, ⟨0, 0⟩⟩ ⟨5, 10, .Uploading⟩ false 1500).2 = true →
        (reportProgress ⟨none, none⟩ (some fun _ => .ok ())
          ⟨⟨0, 10, .Initializing⟩, ⟨0, 0⟩⟩ ⟨5, 10, .Uploading⟩ false 1500).1.throttle =
          ⟨1500, (5 : Int)⟩)
    ∧ ((reportProgress ⟨none, none⟩ (some fun _ => .ok ())
        ⟨⟨0, 10, .Initializing⟩, ⟨0, 0⟩⟩ ⟨5, 10, .Uploading⟩ false 1500).1.lastProgress =
        ⟨5, 10, .Uploading⟩)
    ∧ ((reportProgress ⟨none, none⟩ none
        ⟨⟨0, 10, .Initializing⟩, ⟨0, 0⟩⟩ ⟨5, 10, .Uploading⟩ false 1500).2 = false)
    ∧ progressIntervalMs ⟨none, none⟩ = 1000
    ∧ progressBytesThreshold ⟨none, none⟩ = 1000000 :=
  reportProgress_gate ⟨none, none⟩ (fun _ => .ok ())
    ⟨⟨0, 10, .Initializing⟩, ⟨0, 0⟩⟩ ⟨5, 10, .Uploading⟩ false 1500

/-! ## Chunk planning (lines 651-652, 705-716) -/

/-- Chunk boundaries of the upload loop (lines 713-714): chunk `i` starts
at `i * C` and ends at `min F (i * C + C)` (exclusive). -/
def chunkStart (C i : Nat) : Nat := i * C

/-- End offset (exclusive) of chunk `i`. -/
def chunkStop (F C i : Nat) : Nat := min F (i * C + C)

/-- `Math.ceil(F / C)` for a positive integer `C` (line 705). -/
def numChunks (F C : Nat) : Nat := (F + C - 1) / C

/-- Result of a JS arithmetic expression that may be `NaN` or `Infinity`
(`Math.ceil(file.size / chunkSize)` at line 705 when `chunkSize` is 0). -/
inductive JsNum
  | fin (q : Int)
  | nan
  | posInf
  deriving DecidableEq, Repr

/-- `Math.ceil(a / b)` over integer operands: division by zero gives `NaN`
(for `0 / 0`) or `Infinity`; otherwise the exact rational quotient is
rounded up, written with floor division as `-((-a).fdiv b)`. -/
def jsCeilDiv (a b : Int) : JsNum :=
  if b = 0 then (if a = 0 then .nan else .posInf)
  else .fin (-((-a).fdiv b))

/-- The synchronous exception of `new Array(chunks)` at line 708. -/
inductive PlanError
  | rangeError
  deriving DecidableEq, Repr

/-- `new Array(len)`: only a nonnegative integer is a valid array length;
`NaN`, `Infinity` and negative values throw a `RangeError`. -/
def newArrayLength : JsNum → Except PlanError Nat
  | .fin q => if q < 0 then .error .rangeError else .ok q.toNat
  | .nan => .error .rangeError
  | .posInf => .error .rangeError

/-- Line 651: `size === -1 || size >= file.size`. -/
def isUploadSingleChunk (fileSize : Nat) (size : Int) : Bool :=
  size == -1 || decide ((fileSize : Int) ≤ size)

/-- Line 652: `isUploadSingleChunk ? file.size : size`. -/
def effectiveChunkSize (fileSize : Nat) (size : Int) : Int :=
  if isUploadSingleChunk fileSize size then (fileSize : Int) else size

/-- Lines 705-708: the number of chunks as computed by `upload()`,
including the `RangeError` thrown by `new Array(chunks)` when the value is
not a valid array length. -/
def planChunkCount (fileSize : Nat) (size : Int) : Except PlanError Nat :=
  newArrayLength (jsCeilDiv (fileSize : Int) (effectiveChunkSize fileSize size))

/-- For a positive divisor the JS ceiling division agrees with the `Nat`
ceiling `(F + C - 1) / C`. -/
theorem jsCeilDiv_coe (F C : Nat) (hC : 0 < C) :
    jsCeilDiv (F : Int) (C : Int) = .fin (numChunks F C) := by
  have hC0 : (C : Int) ≠ 0 := by
    simp only [ne_eq, Nat.cast_eq_zero]
    omega
  unfold jsCeilDiv
  rw [if_neg hC0]
  have hfd : (-(F : Int)).fdiv (C : Int) = (-(F : Int)) / (C : Int) :=
    Int.fdiv_eq_ediv _ (by exact_mod_cast Nat.zero_le C)
  congr 1
  rw [hfd]
  rcases Nat.eq_zero_or_pos F with hF | hF
  · subst hF
    have : numChunks 0 C = 0 := by
      unfold numChunks
      exact Nat.div_eq_of_lt (by omega)
    rw [this]
    simp
  · set n := numChunks F C with hn
    have hmod : C * n + (F + C - 1) % C = F + C - 1 := by
      simpa [hn, numChunks] using Nat.div_add_mod (F + C - 1) C
    have hrlt : (F + C - 1) % C < C := Nat.mod_lt _ hC
    have h1 : C * n ≤ F + C - 1 := by omega
    have h2 : F ≤ C * n := by omega
    have hpos : (0 : Int) < (C : Int) := by exact_mod_cast hC
    have h2' : (F : Int) ≤ (C : Int) * (n : Int) := by exact_mod_cast h2
    have h1' : (C : Int) * (n : Int) ≤ (F : Int) + (C : Int) - 1 := by
      have := (Nat.cast_le (α := Int)).mpr h1
      push_cast at this
      omega
    have key : (-(F : Int)) / (C : Int) = -(n : Int) ∧
        (-(F : Int)) % (C : Int) = (C : Int) * (n : Int) - (F : Int) :=
      (Int.ediv_emod_unique hpos).mpr ⟨by ring, by omega, by omega⟩
    rw [key.1, neg_neg]

/-- C1: for `0 < C < F` the plan of `upload()` has `⌈F / C⌉` chunks (the
count `n` is characterized by `(n-1)*C < F ≤ n*C` and is exactly what the
code computes through `Math.ceil` and `new Array`), chunk `i` covers
`[i*C, min F (i*C + C))`, consecutive chunks meet with no gap, every chunk
is nonempty, every chunk but the last has length `C`, the last chunk has
the remainder length and ends exactly at `F`, every byte of `[0, F)` lies
in the chunk at index `x / C`, and earlier chunks end before later chunks
begin (no overlap). -/
theorem upload_chunkPlan_partition (F C : Nat) (hC : 0 < C) (hCF : C < F) :
    ((numChunks F C - 1) * C < F ∧ F ≤ numChunks F C * C)
    ∧ planChunkCount F (C : Int) = .ok (numChunks F C)
    ∧ chunkStart C 0 = 0
    ∧ (∀ i, i < numChunks F C →
        chunkStart C i = i * C ∧ chunkStop F C i = min F (i * C + C))
    ∧ (∀ i, i + 1 < numChunks F C → chunkStop F C i = chunkStart C (i + 1))
    ∧ (∀ i, i < numChunks F C → chunkStart C i < chunkStop F C i)
    ∧ (∀ i, i + 1 < numChunks F C → chunkStop F C i - chunkStart C i = C)
    ∧ chunkStop F C (numChunks F C - 1) - chunkStart C (numChunks F C - 1)
        = F - (numChunks F C - 1) * C
    ∧ chunkStop F C (numChunks F C - 1) = F
    ∧ (∀ x, x < F → chunkStart C (x / C) ≤ x ∧ x < chunkStop F C (x / C) ∧
        x / C < numChunks F C)
    ∧ (∀ i j, i < j → j < numChunks F C → chunkStop F C i ≤ chunkStart C j) := by
  have hF : 0 < F := hC.trans hCF
  set n := numChunks F C with hn
  have hmod : C * n + (F + C - 1) % C = F + C - 1 := by
    simpa [hn, numChunks] using Nat.div_add_mod (F + C - 1) C
  have hrlt : (F + C - 1) % C < C := Nat.mod_lt _ hC
  have h1 : C * n ≤ F + C - 1 := by omega
  have h2 : F ≤ C * n := by omega
  have hn1 : 1 ≤ n := by
    rcases Nat.eq_zero_or_pos n with h0 | h
    · rw [h0, Nat.mul_zero] at h2; omega
    · exact h
  have hsub : (n - 1) * C + C = n * C := by
    have h := Nat.sub_add_cancel hn1
    calc (n - 1) * C + C = ((n - 1) + 1) * C := by rw [add_one_mul]
    _ = n * C := by rw [h]
  have bound2 : F ≤ n * C := by rw [Nat.mul_comm]; exact h2
  have bound1 : (n - 1) * C < F := by
    have h1' : n * C ≤ F + C - 1 := by rw [Nat.mul_comm]; exact h1
    omega
  have hstep : ∀ i, i + 1 < n → chunkStop F C i = chunkStart C (i + 1) := by
    intro i hi
    have hle : (i + 1) * C ≤ (n - 1) * C := mul_le_mul_right' (by omega) C
    have hlt : (i + 1) * C < F := lt_of_le_of_lt hle bound1
    unfold chunkStop chunkStart
    rw [add_one_mul] at hlt
    rw [min_eq_right (le_of_lt hlt), add_one_mul]
  have hlen0 : ∀ i, i < n → chunkStart C i < chunkStop F C i := by
    intro i hi
    have h3 : i * C ≤ (n - 1) * C := mul_le_mul_right' (by omega) C
    have h4 : i * C < F := lt_of_le_of_lt h3 bound1
    unfold chunkStart chunkStop
    exact lt_min h4 (Nat.lt_add_of_pos_right hC)
  have hfull : ∀ i, i + 1 < n → chunkStop F C i - chunkStart C i = C := by
    intro i hi
    rw [hstep i hi]
    unfold chunkStart
    rw [add_one_mul]
    exact Nat.add_sub_cancel_left (i * C) C
  have hlast : chunkStop F C (n - 1) = F := by
    unfold chunkStop
    rw [min_eq_left (by rw [hsub]; exact bound2)]
  refine ⟨⟨bound1, bound2⟩, ?_, by simp [chunkStart], fun i _ => ⟨rfl, rfl⟩,
    hstep, hlen0, hfull, by rw [hlast]; rfl, hlast, ?_, ?_⟩
  · -- planChunkCount agrees with numChunks
    have hne : ((C : Int) == -1) = false := by
      simp only [beq_eq_false_iff_ne, ne_eq]
      omega
    have hle : (decide ((F : Int) ≤ (C : Int))) = false := by
      simp only [decide_eq_false_iff_not, not_le]
      exact_mod_cast hCF
    unfold planChunkCount effectiveChunkSize isUploadSingleChunk
    rw [hne, hle]
    simp only [Bool.or_self, Bool.false_eq_true, if_false]
    rw [jsCeilDiv_coe F C hC]
    simp only [newArrayLength]
    rw [if_neg (not_lt.mpr (Int.natCast_nonneg _))]
    simp [hn]
  · intro x hx
    have hdm := Nat.div_add_mod x C
    have hxm : x % C < C := Nat.mod_lt _ hC
    refine ⟨?_, ?_, ?_⟩
    · unfold chunkStart
      rw [Nat.mul_comm]
      exact Nat.le.intro hdm
    · unfold chunkStop
      refine lt_min hx ?_
      rw [Nat.mul_comm]
      omega
    · exact (Nat.div_lt_iff_lt_mul hC).mpr (lt_of_lt_of_le hx bound2)
  · intro i j hij hj
    unfold chunkStop chunkStart
    have hstep2 : i * C + C ≤ j * C := by
      rw [← add_one_mul]
      exact mul_le_mul_right' hij C
    exact le_trans (min_le_right _ _) hstep2

/-- Concrete instantiation of `upload_chunkPlan_partition` at a 10-byte
file with 3-byte chunks: four chunks of sizes 3,3,3,1. -/
theorem upload_chunkPlan_partition_witness :
    (0 < 3 ∧ 3 < 10 ∧ numChunks 10 3 = 4) ∧
    (((numChunks 10 3 - 1) * 3 < 10 ∧ 10 ≤ numChunks 10 3 * 3)
    ∧ planChunkCount 10 (3 : Int) = .ok (numChunks 10 3)
    ∧ chunkStart 3 0 = 0
    ∧ (∀ i, i < numChunks 10 3 →
        chunkStart 3 i = i * 3 ∧ chunkStop 10 3 i = min 10 (i * 3 + 3))
    ∧ (∀ i, i + 1 < numChunks 10 3 → chunkStop 10 3 i = chunkStart 3 (i + 1))
    ∧ (∀ i, i < numChunks 10 3 → chunkStart 3 i < chunkStop 10 3 i)
    ∧ (∀ i, i + 1 < numChunks 10 3 → chunkStop 10 3 i - chunkStart 3 i = 3)
    ∧ chunkStop 10 3 (numChunks 10 3 - 1) - chunkStart 3 (numChunks 10 3 - 1)
        = 10 - (numChunks 10 3 - 1) * 3
    ∧ chunkStop 10 3 (numChunks 10 3 - 1) = 10
    ∧ (∀ x, x < 10 → chunkStart 3 (x / 3) ≤ x ∧ x < chunkStop 10 3 (x / 3) ∧
        x / 3 < numChunks 10 3)
    ∧ (∀ i j, i < j → j < numChunks 10 3 → chunkStop 10 3 i ≤ chunkStart 3 j)) :=
  ⟨⟨by decide, by decide, rfl⟩,
    upload_chunkPlan_partition 10 3 (by decide) (by decide)⟩

/-! ## Per-chunk progress vector (`uploadChunk`, lines 450-473 and 483-496) -/

/-- Transport-level events seen by one `upload()` call: an
`xhr.upload.onprogress` tick carrying `ev.loaded` for chunk `i`, or the
`xhr.onload` success handler for chunk `i`. -/
inductive ChunkEvent
  | progress (i : Nat) (loaded : Nat)
  | success (i : Nat)
  deriving DecidableEq, Repr

/-- One event's effect on `progressPerChunk`: a progress tick clamps
`ev.loaded` to the chunk length (line 454) and never lowers the recorded
entry (lines 457-460); the success handler pins the entry to the chunk
length (line 485). -/
def applyChunkEvent (len : Nat → Nat) (vec : Nat → Nat) :
    ChunkEvent → Nat → Nat
  | .progress i l => Function.update vec i (max (vec i) (min (len i) l))
  | .success i => Function.update vec i (len i)

/-- The vector after a sequence of transport events, starting from
`new Array(chunks).fill(0)` (line 708). -/
def runChunkEvents (len : Nat → Nat) (evs : List ChunkEvent) : Nat → Nat :=
  evs.foldl (applyChunkEvent len) (fun _ => 0)

/-- `progressPerChunk.reduce((a, b) => a + b, 0)` over the `n` chunk
entries. -/
def sumVec (n : Nat) (vec : Nat → Nat) : Nat :=
  (Finset.range n).sum vec

/-- The `uploaded` value reported from a progress tick (lines 462-465):
the vector sum clamped to `total`. -/
def reportedUploaded (n total : Nat) (vec : Nat → Nat) : Nat :=
  min total (sumVec n vec)

/-- A single transport event never lowers any entry, and keeps every entry
at most its chunk length. -/
theorem applyChunkEvent_bounds (len vec : Nat → Nat) (e : ChunkEvent)
    (hinv : ∀ j, vec j ≤ len j) :
    (∀ j, vec j ≤ applyChunkEvent len vec e j) ∧
    (∀ j, applyChunkEvent len vec e j ≤ len j) := by
  cases e with
  | progress i l =>
    refine ⟨fun j => ?_, fun j => ?_⟩ <;> by_cases hj : j = i
    · rw [hj]
      simp only [applyChunkEvent, Function.update_same]
      exact le_max_left _ _
    · simp [applyChunkEvent, Function.update_noteq hj]
    · rw [hj]
      simp only [applyChunkEvent, Function.update_same]
      exact max_le (hinv i) (min_le_left _ _)
    · simp only [applyChunkEvent, Function.update_noteq hj]
      exact hinv j
  | success i =>
    refine ⟨fun j => ?_, fun j => ?_⟩ <;> by_cases hj : j = i
    · rw [hj]
      simp only [applyChunkEvent, Function.update_same]
      exact hinv i
    · simp [applyChunkEvent, Function.update_noteq hj]
    · rw [hj]
      simp [applyChunkEvent, Function.update_same]
    · simp only [applyChunkEvent, Function.update_noteq hj]
      exact hinv j

/-- Folding any batch of transport events preserves the length bound and
never lowers an entry. -/
theorem foldChunkEvents_bounds (len : Nat → Nat) (evs : List ChunkEvent) :
    ∀ vec : Nat → Nat, (∀ j, vec j ≤ len j) →
    (∀ j, vec j ≤ evs.foldl (applyChunkEvent len) vec j) ∧
    (∀ j, evs.foldl (applyChunkEvent len) vec j ≤ len j) := by
  induction evs with
  | nil => exact fun vec hinv => ⟨fun j => le_refl _, hinv⟩
  | cons e rest ih =>
    intro vec hinv
    have h := applyChunkEvent_bounds len vec e hinv
    have h2 := ih (applyChunkEvent len vec e) h.2
    simp only [List.foldl_cons]
    exact ⟨fun j => le_trans (h.1 j) (h2.1 j), h2.2⟩

/-- C4: across any sequence of transport progress events within one
`upload()` call, each per-chunk entry is clamped to its chunk's length and
never decreases (also under duplicate or out-of-order events), the value
reported by a tick is the vector sum clamped to `total`, and the reported
uploaded value is non-decreasing and never exceeds `total`. -/
theorem uploadChunk_progress_monotone (len : Nat → Nat) (total n : Nat)
    (evs : List ChunkEvent) (k m : Nat) (hkm : k ≤ m) :
    (∀ j, runChunkEvents len (evs.take k) j ≤ runChunkEvents len (evs.take m) j)
    ∧ (∀ j, runChunkEvents len (evs.take m) j ≤ len j)
    ∧ reportedUploaded n total (runChunkEvents len (evs.take k)) ≤
        reportedUploaded n total (runChunkEvents len (evs.take m))
    ∧ reportedUploaded n total (runChunkEvents len (evs.take m)) ≤ total
    ∧ reportedUploaded n total (runChunkEvents len evs) =
        min total (sumVec n (runChunkEvents len evs)) := by
  have hzero : ∀ j, (fun _ : Nat => 0) j ≤ len j := fun j => Nat.zero_le _
  have hsplit : evs.take m = evs.take k ++ (evs.drop k).take (m - k) := by
    rw [← List.take_add]
    congr 1
    omega
  have hbase := foldChunkEvents_bounds len (evs.take k) (fun _ => 0) hzero
  have hext := foldChunkEvents_bounds len ((evs.drop k).take (m - k))
    (runChunkEvents len (evs.take k)) hbase.2
  have hpt : ∀ j, runChunkEvents len (evs.take k) j ≤
      runChunkEvents len (evs.take m) j := by
    intro j
    rw [show runChunkEvents len (evs.take m) =
        ((evs.drop k).take (m - k)).foldl (applyChunkEvent len)
          (runChunkEvents len (evs.take k)) by
      unfold runChunkEvents
      rw [hsplit, List.foldl_append]]
    exact hext.1 j
  have hbound : ∀ j, runChunkEvents len (evs.take m) j ≤ len j :=
    (foldChunkEvents_bounds len (evs.take m) (fun _ => 0) hzero).2
  refine ⟨hpt, hbound, ?_, min_le_left _ _, rfl⟩
  unfold reportedUploaded
  exact min_le_min (le_refl total)
    (Finset.sum_le_sum fun j _ => hpt j)

/-- Concrete instantiation of `uploadChunk_progress_monotone` on two
chunks of lengths 3 and 2 with a duplicate, regressing and out-of-order
event sequence. -/
theorem uploadChunk_progress_monotone_witness :
    (∀ j, runChunkEvents (fun j => if j = 0 then 3 else 2)
        ([ChunkEvent.progress 0 2, .progress 0 1, .progress 1 9,
          .success 0].take 1) j ≤
      runChunkEvents (fun j => if j = 0 then 3 else 2)
        ([ChunkEvent.progress 0 2, .progress 0 1, .progress 1 9,
          .success 0].take 3) j)
    ∧ (∀ j, runChunkEvents (fun j => if j = 0 then 3 else 2)
        ([ChunkEvent.progress 0 2, .progress 0 1, .progress 1 9,
          .success 0].take 3) j ≤ (fun j => if j = 0 then 3 else 2) j)
    ∧ reportedUploaded 2 5 (runChunkEvents (fun j => if j = 0 then 3 else 2)
        ([ChunkEvent.progress 0 2, .progress 0 1, .progress 1 9,
          .success 0].take 1)) ≤
      reportedUploaded 2 5 (runChunkEvents (fun j => if j = 0 then 3 else 2)
        ([ChunkEvent.progress 0 2, .progress 0 1, .progress 1 9,
          .success 0].take 3))
    ∧ reportedUploaded 2 5 (runChunkEvents (fun j => if j = 0 then 3 else 2)
        ([ChunkEvent.progress 0 2, .progress 0 1, .progress 1 9,
          .success 0].take 3)) ≤ 5
    ∧ reportedUploaded 2 5 (runChunkEvents (fun j => if j = 0 then 3 else 2)
        [ChunkEvent.progress 0 2, .progress 0 1, .progress 1 9, .success 0]) =
      min 5 (sumVec 2 (runChunkEvents (fun j => if j = 0 then 3 else 2)
        [ChunkEvent.progress 0 2, .progress 0 1, .progress 1 9, .success 0])) :=
  uploadChunk_progress_monotone (fun j => if j = 0 then 3 else 2) 5 2
    [ChunkEvent.progress 0 2, .progress 0 1, .progress 1 9, .success 0]
    1 3 (by decide)

/-! ## The `upload()` session model (lines 646-808) -/

/-- Outcome of one chunk's network exchange as seen by `uploadChunk`:
2xx success (`onload`), non-2xx status (`onload` else-branch), network
error (`onerror`), or cancellation of the in-flight request (`onabort`). -/
inductive ChunkOutcome
  | ok
  | httpError (status : Nat)
  | networkError
  | abortedMid
  deriving DecidableEq, Repr

/-- One `reportProgress` call issued by `upload()` or `uploadChunk`:
snapshot fields plus the `force` flag it was invoked with. -/
structure Report where
  uploaded : Nat
  total : Nat
  state : UploadState
  force : Bool
  deriving DecidableEq, Repr

/-- One chunk request as assembled at lines 713-725: the byte window
`[first, stop)` and the optional inclusive Range header pair. -/
structure ChunkRequest where
  index : Nat
  first : Nat
  stop : Nat
  range : Option (Nat × Nat)
  deriving DecidableEq, Repr

/-- Network-trace events: opening and settling of one chunk exchange. -/
inductive NetEvent
  | start (i : Nat)
  | resolve (i : Nat)
  deriving DecidableEq, Repr

/-- The rejection taxonomy of one `upload()` call. -/
inductive UploadErr
  | checksumFailure
  | rangeError
  | chunkFailure
  | aborted
  | finishRequestFailure
  | noHash
  | lengthMismatch
  | checksumMismatch
  | finalizeHookFailure
  deriving DecidableEq, Repr

/-- The external world of one `upload()` call: the checksum computation's
outcome, each chunk exchange's outcome, when (in settled-chunk count) an
`abort()` call fires during the chunk phase if any, the finish endpoint's
response, and the optional finalize hook's outcome (`some false` models a
rejecting hook). -/
structure UploadEnv where
  checksum : Option String
  outcome : Nat → ChunkOutcome
  abortAt : Option Nat
  finishResp : FinishResponse
  finalize : Option Bool

/-- True when the abort flag is already set at the top of loop iteration
`i` (line 711): the abort fired once `j ≤ i` chunks had settled. -/
def abortSeen (env : UploadEnv) (i : Nat) : Bool :=
  match env.abortAt with
  | some j => decide (j ≤ i)
  | none => false

/-- Everything the chunk loop produces: progress reports, issued chunk
requests, the network trace, the final progress vector, and the error that
broke the loop, if any. -/
structure LoopOut where
  reports : List Report
  requests : List ChunkRequest
  net : List NetEvent
  vec : Nat → Nat
  err : Option UploadErr

/-- The sequential chunk loop (lines 710-751): each iteration checks the
abort flag, computes the chunk window (lines 713-716) and the inclusive
Range header for multi-chunk plans (lines 722-725), and awaits
`uploadChunk`.  A successful chunk pins its progress entry and reports an
unforced Uploading snapshot (lines 483-496); a failed or cancelled chunk
reports a forced Error snapshot from the XHR handler (lines 500-510,
525-533, 542-549) and again from the loop's catch (lines 740-747) before
the error propagates and stops the loop. -/
def chunkLoop (env : UploadEnv) (n C F total : Nat) :
    List Nat → (Nat → Nat) → LoopOut
  | [], vec => ⟨[], [], [], vec, none⟩
  | i :: rest, vec =>
    if abortSeen env i then ⟨[], [], [], vec, none⟩
    else
      let first := i * C
      let stop := min F (first + C)
      let len := stop - first
      let req : ChunkRequest :=
        ⟨i, first, stop, if 1 < n then some (first, stop - 1) else none⟩
      match env.outcome i with
      | .ok =>
        let vec' := Function.update vec i len
        let rest' := chunkLoop env n C F total rest vec'
        ⟨⟨min total (sumVec n vec'), total, .Uploading, false⟩ :: rest'.reports,
          req :: rest'.requests,
          .start i :: .resolve i :: rest'.net,
          rest'.vec, rest'.err⟩
      | .abortedMid =>
        ⟨[⟨sumVec n vec, total, .Error, true⟩,
            ⟨sumVec n vec, total, .Error, true⟩],
          [req], [.start i, .resolve i], vec, some .aborted⟩
      | _ =>
        ⟨[⟨sumVec n vec, total, .Error, true⟩,
            ⟨sumVec n vec, total, .Error, true⟩],
          [req], [.start i, .resolve i], vec, some .chunkFailure⟩

/-- Map the verifier's rejection to the session-level taxonomy. -/
def mapFinishErr : FinishError → UploadErr
  | .finishRequestFailed => .finishRequestFailure
  | .noHash => .noHash
  | .lengthMismatch _ _ => .lengthMismatch
  | .checksumMismatch _ _ => .checksumMismatch

/-- The finishing phase (lines 765-805): the Finishing snapshot was already
reported; run `finishAndVerify` (which reports a forced Error itself when
the status gate fails, lines 606-613), await the finalize hook, and either
report Done or let the catch at lines 799-805 report a forced Error before
rethrowing. -/
def uploadFinishPhase (alg sha : String) (total : Nat) (env : UploadEnv) :
    List Report × Except UploadErr String :=
  let finRep : Report := ⟨total, total, .Finishing, true⟩
  let statusReps : List Report :=
    if env.finishResp.status ≠ 200 then [⟨total, total, .Error, true⟩] else []
  match finishAndVerify env.finishResp sha (total : Int) alg with
  | .error e =>
    (finRep :: (statusReps ++ [⟨total, total, .Error, true⟩]),
      .error (mapFinishErr e))
  | .ok h =>
    match env.finalize with
    | some false =>
      ([finRep, ⟨total, total, .Error, true⟩], .error .finalizeHookFailure)
    | _ => ([finRep, ⟨total, total, .Done, true⟩], .ok h)

/-- The observable outcome of one `upload()` call. -/
structure UploadResult where
  reports : List Report
  requests : List ChunkRequest
  net : List NetEvent
  result : Except UploadErr String

/-- One whole `upload(file, size)` call (lines 646-808): forced
Initializing snapshot, checksum (whose failure reports a forced Error and
rethrows, lines 673-681), forced Uploading snapshot, the chunk plan of
lines 705-708 (whose `new Array` can throw a synchronous `RangeError`
before any further report), the sequential chunk loop, the aborted check
of lines 753-763, and the finishing phase. -/
def uploadModel (alg : String) (F : Nat) (size : Int) (env : UploadEnv) :
    UploadResult :=
  let total := F
  let initRep : Report := ⟨0, total, .Initializing, true⟩
  match env.checksum with
  | none =>
    ⟨[initRep, ⟨0, total, .Error, true⟩], [], [], .error .checksumFailure⟩
  | some sha =>
    let upRep : Report := ⟨0, total, .Uploading, true⟩
    match planChunkCount F size with
    | .error _ => ⟨[initRep, upRep], [], [], .error .rangeError⟩
    | .ok n =>
      let lo := chunkLoop env n ((effectiveChunkSize F size).toNat) F total
        (List.range n) (fun _ => 0)
      match lo.err with
      | some e => ⟨initRep :: upRep :: lo.reports, lo.requests, lo.net, .error e⟩
      | none =>
        if env.abortAt.isSome then
          ⟨(initRep :: upRep :: lo.reports) ++
              [⟨sumVec n lo.vec, total, .Error, true⟩],
            lo.requests, lo.net, .error .aborted⟩
        else
          let fin := uploadFinishPhase alg sha total env
          ⟨(initRep :: upRep :: lo.reports) ++ fin.1, lo.requests, lo.net,
            fin.2⟩

/-- Prepending keeps a known last element. -/
theorem getLast?_cons_of_getLast? {α : Type} (a : α) (l : List α) (b : α)
    (h : l.getLast? = some b) : (a :: l).getLast? = some b := by
  cases l with
  | nil => simp at h
  | cons x xs => rw [List.getLast?_cons_cons]; exact h

/-- Appending on the left keeps a known last element. -/
theorem getLast?_append_of_getLast? {α : Type} (l₁ l₂ : List α) (b : α)
    (h : l₂.getLast? = some b) : (l₁ ++ l₂).getLast? = some b := by
  induction l₁ with
  | nil => simpa using h
  | cons a as ih =>
    rw [List.cons_append]
    exact getLast?_cons_of_getLast? _ _ _ ih

/-- When the chunk loop breaks with an error, its final report is the
forced Error snapshot of the loop's catch clause. -/
theorem chunkLoop_err_lastReport (env : UploadEnv) (n C F total : Nat) :
    ∀ (l : List Nat) (vec : Nat → Nat) (e : UploadErr),
      (chunkLoop env n C F total l vec).err = some e →
      ∃ u, (chunkLoop env n C F total l vec).reports.getLast? =
        some ⟨u, total, .Error, true⟩ := by
  intro l
  induction l with
  | nil =>
    intro vec e h
    simp [chunkLoop] at h
  | cons i rest ih =>
    intro vec e h
    cases ha : abortSeen env i with
    | true => simp [chunkLoop, ha] at h
    | false =>
      cases ho : env.outcome i with
      | ok =>
        simp only [chunkLoop, ha, Bool.false_eq_true, if_false, ho] at h ⊢
        obtain ⟨u, hu⟩ := ih _ e h
        exact ⟨u, getLast?_cons_of_getLast? _ _ _ hu⟩
      | abortedMid =>
        simp only [chunkLoop, ha, Bool.false_eq_true, if_false, ho]
        exact ⟨sumVec n vec, by simp⟩
      | httpError st =>
        simp only [chunkLoop, ha, Bool.false_eq_true, if_false, ho]
        exact ⟨sumVec n vec, by simp⟩
      | networkError =>
        simp only [chunkLoop, ha, Bool.false_eq_true, if_false, ho]
        exact ⟨sumVec n vec, by simp⟩

/-- When the finishing phase rejects, its final report is the forced Error
snapshot of the catch clause at lines 799-805. -/
theorem uploadFinishPhase_err_last (alg sha : String) (total : Nat)
    (env : UploadEnv) (e : UploadErr)
    (h : (uploadFinishPhase alg sha total env).2 = .error e) :
    (uploadFinishPhase alg sha total env).1.getLast? =
      some ⟨total, total, .Error, true⟩ := by
  unfold uploadFinishPhase at h ⊢
  cases hf : finishAndVerify env.finishResp sha (total : Int) alg with
  | error fe =>
    simp only [hf]
    exact getLast?_cons_of_getLast? _ _ _
      (getLast?_append_of_getLast? _ _ _ (by simp))
  | ok hh =>
    rw [hf] at h
    cases hfin : env.finalize with
    | none => rw [hfin] at h; simp at h
    | some b =>
      cases b with
      | false => simp only [hf, hfin]; simp
      | true => rw [hfin] at h; simp at h

/-- C8: every rejecting execution of `upload()` within the modelled
failure taxonomy (checksum failure, chunk transport failure, abort,
finish-request failure, missing hash/length, checksum or length mismatch,
finalize-hook failure) emits a forced Error snapshot as its final progress
report before the promise rejects; only the synchronous `RangeError` of an
invalid chunk count (outside the claimed taxonomy) is excluded. -/
theorem upload_rejection_reportsError (alg : String) (F : Nat) (size : Int)
    (env : UploadEnv) (e : UploadErr)
    (herr : (uploadModel alg F size env).result = .error e)
    (hnr : e ≠ .rangeError) :
    ∃ u, (uploadModel alg F size env).reports.getLast? =
      some ⟨u, F, .Error, true⟩ := by
  cases hck : env.checksum with
  | none => exact ⟨0, by simp [uploadModel, hck]⟩
  | some sha =>
    cases hplan : planChunkCount F size with
    | error pe =>
      have hres : (uploadModel alg F size env).result = .error .rangeError := by
        simp [uploadModel, hck, hplan]
      rw [hres] at herr
      simp only [Except.error.injEq] at herr
      exact absurd herr.symm hnr
    | ok n =>
      cases hle : (chunkLoop env n ((effectiveChunkSize F size).toNat) F F
          (List.range n) (fun _ => 0)).err with
      | some le =>
        have hreps : (uploadModel alg F size env).reports =
            ⟨0, F, .Initializing, true⟩ :: ⟨0, F, .Uploading, true⟩ ::
            (chunkLoop env n ((effectiveChunkSize F size).toNat) F F
              (List.range n) (fun _ => 0)).reports := by
          simp [uploadModel, hck, hplan, hle]
        obtain ⟨u, hu⟩ := chunkLoop_err_lastReport env n
          ((effectiveChunkSize F size).toNat) F F (List.range n)
          (fun _ => 0) le hle
        exact ⟨u, by
          rw [hreps]
          exact getLast?_cons_of_getLast? _ _ _
            (getLast?_cons_of_getLast? _ _ _ hu)⟩
      | none =>
        cases hab : env.abortAt.isSome with
        | true =>
          have hreps : (uploadModel alg F size env).reports =
              ⟨0, F, .Initializing, true⟩ :: ⟨0, F, .Uploading, true⟩ ::
              ((chunkLoop env n ((effectiveChunkSize F size).toNat) F F
                  (List.range n) (fun _ => 0)).reports ++
                [⟨sumVec n (chunkLoop env n ((effectiveChunkSize F size).toNat)
                  F F (List.range n) (fun _ => 0)).vec, F, .Error, true⟩]) := by
            simp [uploadModel, hck, hplan, hle, hab]
          refine ⟨sumVec n (chunkLoop env n ((effectiveChunkSize F size).toNat)
            F F (List.range n) (fun _ => 0)).vec, ?_⟩
          rw [hreps]
          exact getLast?_cons_of_getLast? _ _ _
            (getLast?_cons_of_getLast? _ _ _
              (getLast?_append_of_getLast? _ _ _ (by simp)))
        | false =>
          have hres : (uploadModel alg F size env).result =
              (uploadFinishPhase alg sha F env).2 := by
            simp [uploadModel, hck, hplan, hle, hab]
          have hreps : (uploadModel alg F size env).reports =
              ⟨0, F, .Initializing, true⟩ :: ⟨0, F, .Uploading, true⟩ ::
              ((chunkLoop env n ((effectiveChunkSize F size).toNat) F F
                  (List.range n) (fun _ => 0)).reports ++
                (uploadFinishPhase alg sha F env).1) := by
            simp [uploadModel, hck, hplan, hle, hab]
          rw [hres] at herr
          have hlast := uploadFinishPhase_err_last alg sha F env e herr
          refine ⟨F, ?_⟩
          rw [hreps]
          exact getLast?_cons_of_getLast? _ _ _
            (getLast?_cons_of_getLast? _ _ _
              (getLast?_append_of_getLast? _ _ _ hlast))

/-- Concrete instantiation of `upload_rejection_reportsError`: a 2-byte
single-chunk upload whose only chunk gets HTTP 500 rejects after a final
forced Error report. -/
theorem upload_rejection_reportsError_witness :
    ∃ u, (uploadModel "h" 2 (-1)
      ⟨some "s", fun _ => .httpError 500, none, ⟨200, "h=s", 2⟩, none⟩).reports.getLast? =
      some ⟨u, 2, .Error, true⟩ :=
  upload_rejection_reportsError "h" 2 (-1)
    ⟨some "s", fun _ => .httpError 500, none, ⟨200, "h=s", 2⟩, none⟩
    .chunkFailure rfl (by decide)

/-- C9: a 0-byte file uploaded with the whole-file sentinel -1 makes the
effective chunk size 0, `Math.ceil(0 / 0)` evaluate to `NaN`, and
`new Array(NaN)` throw a synchronous `RangeError`, so `upload()` rejects
with that error while the last emitted snapshot is the forced Uploading
one, not an Error snapshot. -/
theorem upload_emptyFile_sentinel_rangeError (alg : String) (env : UploadEnv)
    (s : String) (hck : env.checksum = some s) :
    effectiveChunkSize 0 (-1) = 0
    ∧ jsCeilDiv ((0 : Nat) : Int) (effectiveChunkSize 0 (-1)) = .nan
    ∧ planChunkCount 0 (-1) = .error .rangeError
    ∧ (uploadModel alg 0 (-1) env).result = .error .rangeError
    ∧ (uploadModel alg 0 (-1) env).reports.getLast? =
        some ⟨0, 0, .Uploading, true⟩ := by
  refine ⟨rfl, rfl, rfl, ?_, ?_⟩
  · unfold uploadModel
    rw [hck]
    rfl
  · unfold uploadModel
    rw [hck]
    rfl

/-- Concrete instantiation of `upload_emptyFile_sentinel_rangeError`. -/
theorem upload_emptyFile_sentinel_rangeError_witness :
    effectiveChunkSize 0 (-1) = 0
    ∧ jsCeilDiv ((0 : Nat) : Int) (effectiveChunkSize 0 (-1)) = .nan
    ∧ planChunkCount 0 (-1) = .error .rangeError
    ∧ (uploadModel "h" 0 (-1)
        ⟨some "s", fun _ => .ok, none, ⟨200, "x", 0⟩, none⟩).result =
        .error .rangeError
    ∧ (uploadModel "h" 0 (-1)
        ⟨some "s", fun _ => .ok, none, ⟨200, "x", 0⟩, none⟩).reports.getLast? =
        some ⟨0, 0, .Uploading, true⟩ :=
  upload_emptyFile_sentinel_rangeError "h"
    ⟨some "s", fun _ => .ok, none, ⟨200, "x", 0⟩, none⟩ "s" rfl

/-! ## abort() (lines 362-377) -/

/-- Client-level flags touched by `abort()`. -/
structure ClientFlags where
  aborted : Bool
  hasController : Bool
  controllerFired : Bool
  deriving DecidableEq, Repr

/-- `abort()` (lines 362-377): set the abort flag, fire the abort
controller when one exists, and force-report an Error snapshot built from
the last recorded snapshot's uploaded and total.  The function is total —
a throwing observer callback is swallowed inside `reportProgress` — so
`abort()` never throws to its caller, no matter when or how often it is
called. -/
def abortClient (cfg : ThrottleConfig) (cb : Option Callback)
    (flags : ClientFlags) (cell : ProgressCell) (now : Int) :
    ClientFlags × ProgressCell × Bool :=
  let flags' : ClientFlags :=
    ⟨true, flags.hasController, flags.controllerFired || flags.hasController⟩
  let r := reportProgress cfg cb cell
    ⟨cell.lastProgress.uploaded, cell.lastProgress.total, .Error⟩ true now
  (flags', r.1, r.2)

/-- `reportProgress` always records the snapshot as `lastProgress`,
delivered or not. -/
theorem reportProgress_lastProgress (cfg : ThrottleConfig)
    (cb : Option Callback) (c : ProgressCell) (st : ProgressState)
    (force : Bool) (now : Int) :
    (reportProgress cfg cb c st force now).1.lastProgress = st := by
  unfold reportProgress
  cases cb with
  | none => rfl
  | some f =>
    cases hg : shouldReport cfg c.throttle st force now with
    | false => simp [hg]
    | true => cases hf : f st <;> simp [hg, hf]

/-- When every chunk before the abort point succeeds, the loop never
throws: it either completes or breaks cleanly at the abort check. -/
theorem chunkLoop_ok_before_abort (env : UploadEnv) (n C F total : Nat)
    (j : Nat) (hab : env.abortAt = some j)
    (hok : ∀ i, i < j → env.outcome i = .ok) :
    ∀ (l : List Nat) (vec : Nat → Nat),
      (chunkLoop env n C F total l vec).err = none := by
  intro l
  induction l with
  | nil => intro vec; simp [chunkLoop]
  | cons i rest ih =>
    intro vec
    by_cases hj : j ≤ i
    · have ha : abortSeen env i = true := by simp [abortSeen, hab, hj]
      simp [chunkLoop, ha]
    · push_neg at hj
      have ha : abortSeen env i = false := by
        simp only [abortSeen, hab, decide_eq_false_iff_not, not_le]
        omega
      have ho := hok i hj
      simp [chunkLoop, ha, ho, ih]

/-- C7: `abort()` never throws to its caller — it is a total function of
the client state, for every observer callback including throwing ones —
and it sets the abort flag, fires the cancellation controller when one
exists, records a forced Error snapshot carrying the last snapshot's
uploaded and total (and delivers it whenever an observer is registered);
a pending `upload()` whose chunks before the abort point all succeeded
then settles with the aborted rejection. -/
theorem abort_safe_and_rejects_aborted (cfg : ThrottleConfig)
    (cb : Option Callback) (flags : ClientFlags) (cell : ProgressCell)
    (now : Int) (alg : String) (F : Nat) (size : Int) (env : UploadEnv)
    (sha : String) (j n : Nat)
    (hck : env.checksum = some sha) (hab : env.abortAt = some j)
    (hok : ∀ i, i < j → env.outcome i = .ok)
    (hplan : planChunkCount F size = .ok n) :
    (abortClient cfg cb flags cell now).1.aborted = true
    ∧ ((abortClient cfg cb flags cell now).1.controllerFired =
        (flags.controllerFired || flags.hasController))
    ∧ (abortClient cfg cb flags cell now).2.1.lastProgress =
        ⟨cell.lastProgress.uploaded, cell.lastProgress.total, .Error⟩
    ∧ (cb.isSome = true → (abortClient cfg cb flags cell now).2.2 = true)
    ∧ (uploadModel alg F size env).result = .error .aborted := by
  refine ⟨rfl, rfl, ?_, ?_, ?_⟩
  · exact reportProgress_lastProgress cfg cb cell _ true now
  · intro hsome
    cases cb with
    | none => simp at hsome
    | some f =>
      have hg : shouldReport cfg cell.throttle
          ⟨cell.lastProgress.uploaded, cell.lastProgress.total, .Error⟩
          true now = true := by simp [shouldReport]
      unfold abortClient reportProgress
      cases hf : f ⟨cell.lastProgress.uploaded, cell.lastProgress.total,
        .Error⟩ <;> simp [hg, hf]
  · have hle := chunkLoop_ok_before_abort env n
      ((effectiveChunkSize F size).toNat) F F j hab hok
      (List.range n) (fun _ => 0)
    have habs : env.abortAt.isSome = true := by simp [hab]
    simp [uploadModel, hck, hplan, hle, habs]

/-- Concrete instantiation of `abort_safe_and_rejects_aborted`: abort
fired after one settled chunk of a 3-chunk plan; the flag is set, the
controller fires, the forced Error snapshot carries the last uploaded and
total, and the upload rejects as aborted. -/
theorem abort_safe_and_rejects_aborted_witness :
    (abortClient ⟨none, none⟩ (some fun _ => .ok ())
        ⟨false, true, false⟩ ⟨⟨3, 10, .Uploading⟩, ⟨0, 0⟩⟩ 5).1.aborted = true
    ∧ ((abortClient ⟨none, none⟩ (some fun _ => .ok ())
        ⟨false, true, false⟩ ⟨⟨3, 10, .Uploading⟩, ⟨0, 0⟩⟩ 5).1.controllerFired =
        (false || true))
    ∧ (abortClient ⟨none, none⟩ (some fun _ => .ok ())
        ⟨false, true, false⟩ ⟨⟨3, 10, .Uploading⟩, ⟨0, 0⟩⟩ 5).2.1.lastProgress =
        ⟨(⟨⟨3, 10, .Uploading⟩, ⟨0, 0⟩⟩ : ProgressCell).lastProgress.uploaded,
          (⟨⟨3, 10, .Uploading⟩, ⟨0, 0⟩⟩ : ProgressCell).lastProgress.total, .Error⟩
    ∧ ((some (fun _ => (Except.ok () : Except String Unit)) : Option Callback).isSome = true →
        (abortClient ⟨none, none⟩ (some fun _ => .ok ())
          ⟨false, true, false⟩ ⟨⟨3, 10, .Uploading⟩, ⟨0, 0⟩⟩ 5).2.2 = true)
    ∧ (uploadModel "h" 5 2
        ⟨some "s", fun _ => .ok, some 1, ⟨200, "h=s", 5⟩, none⟩).result =
        .error .aborted :=
  abort_safe_and_rejects_aborted ⟨none, none⟩ (some fun _ => .ok ())
    ⟨false, true, false⟩ ⟨⟨3, 10, .Uploading⟩, ⟨0, 0⟩⟩ 5 "h" 5 2
    ⟨some "s", fun _ => .ok, some 1, ⟨200, "h=s", 5⟩, none⟩ "s" 1 3
    rfl rfl (fun _ _ => rfl) rfl

/-! ## Sequentiality of the chunk loop (C5) -/

/-- Canonical shape of the network trace of the awaited chunk loop: the
exchanges of consecutive chunk indices, in order, each opened and settled
before the next begins. -/
def pairTrace : Nat → Nat → List NetEvent
  | _, 0 => []
  | i, m + 1 => .start i :: .resolve i :: pairTrace (i + 1) m

/-- Number of exchange openings in a trace. -/
def countStarts (l : List NetEvent) : Nat :=
  l.countP fun e => match e with | .start _ => true | _ => false

/-- Number of exchange settlements in a trace. -/
def countResolves (l : List NetEvent) : Nat :=
  l.countP fun e => match e with | .resolve _ => true | _ => false

/-- The chunk loop's network trace over consecutive indices always has the
canonical sequential shape. -/
theorem chunkLoop_net_shape (env : UploadEnv) (n C F total : Nat) :
    ∀ (r i : Nat) (vec : Nat → Nat), ∃ m,
      (chunkLoop env n C F total (List.range' i r) vec).net = pairTrace i m := by
  intro r
  induction r with
  | zero => intro i vec; exact ⟨0, by simp [List.range', chunkLoop, pairTrace]⟩
  | succ r ih =>
    intro i vec
    rw [List.range'_succ]
    cases ha : abortSeen env i with
    | true => exact ⟨0, by simp [chunkLoop, ha, pairTrace]⟩
    | false =>
      cases ho : env.outcome i with
      | ok =>
        obtain ⟨m, hm⟩ := ih (i + 1)
          (Function.update vec i (min F (i * C + C) - i * C))
        exact ⟨m + 1, by simp [chunkLoop, ha, ho, pairTrace, hm]⟩
      | abortedMid => exact ⟨1, by simp [chunkLoop, ha, ho, pairTrace]⟩
      | httpError st => exact ⟨1, by simp [chunkLoop, ha, ho, pairTrace]⟩
      | networkError => exact ⟨1, by simp [chunkLoop, ha, ho, pairTrace]⟩

/-- In a canonical sequential trace, any occurrence of `start j` is either
the very first exchange of the trace or is preceded by `resolve (j-1)`. -/
theorem pairTrace_start_preceded :
    ∀ (m i j : Nat) (l₁ l₂ : List NetEvent),
      pairTrace i m = l₁ ++ .start j :: l₂ →
      (j = i ∧ l₁ = []) ∨ .resolve (j - 1) ∈ l₁ := by
  intro m
  induction m with
  | zero =>
    intro i j l₁ l₂ h
    simp [pairTrace] at h
  | succ m ih =>
    intro i j l₁ l₂ h
    simp only [pairTrace] at h
    cases l₁ with
    | nil =>
      simp only [List.nil_append] at h
      injection h with h1 h2
      injection h1 with h1
      exact Or.inl ⟨h1.symm, rfl⟩
    | cons a as =>
      simp only [List.cons_append] at h
      injection h with h1 h2
      cases as with
      | nil =>
        simp only [List.nil_append] at h2
        injection h2 with h3 h4
        exact absurd h3 (by simp)
      | cons b bs =>
        simp only [List.cons_append] at h2
        injection h2 with h3 h4
        rcases ih (i + 1) j bs l₂ h4 with ⟨hj, hbs⟩ | hmem
        · refine Or.inr ?_
          rw [hj, ← h3]
          simp
        · exact Or.inr (List.mem_cons_of_mem _ (List.mem_cons_of_mem _ hmem))

/-- In a canonical sequential trace, every prefix has at most one exchange
outstanding: starts never exceed resolves by more than one. -/
theorem pairTrace_outstanding :
    ∀ (m i k : Nat),
      countStarts ((pairTrace i m).take k) ≤
        countResolves ((pairTrace i m).take k) + 1 := by
  intro m
  induction m with
  | zero => intro i k; simp [pairTrace, countStarts, countResolves]
  | succ m ih =>
    intro i k
    match k with
    | 0 => simp [countStarts, countResolves]
    | 1 => simp [pairTrace, countStarts, countResolves]
    | k + 2 =>
      have h := ih (i + 1) k
      simp only [pairTrace, List.take_succ_cons] at h ⊢
      simp only [countStarts, countResolves, List.countP_cons] at h ⊢
      simp
      omega

/-- Every network trace of the modelled `upload()` has the canonical
sequential shape starting at chunk 0. -/
theorem uploadModel_net_shape (alg : String) (F : Nat) (size : Int)
    (env : UploadEnv) :
    ∃ m, (uploadModel alg F size env).net = pairTrace 0 m := by
  cases hck : env.checksum with
  | none => exact ⟨0, by simp [uploadModel, hck, pairTrace]⟩
  | some sha =>
    cases hplan : planChunkCount F size with
    | error pe => exact ⟨0, by simp [uploadModel, hck, hplan, pairTrace]⟩
    | ok n =>
      obtain ⟨m, hm⟩ := chunkLoop_net_shape env n
        ((effectiveChunkSize F size).toNat) F F n 0 (fun _ => 0)
      rw [← List.range_eq_range'] at hm
      refine ⟨m, ?_⟩
      cases hle : (chunkLoop env n ((effectiveChunkSize F size).toNat) F F
          (List.range n) (fun _ => 0)).err with
      | some le => simp [uploadModel, hck, hplan, hle, hm]
      | none =>
        cases hab : env.abortAt.isSome with
        | true => simp [uploadModel, hck, hplan, hle, hab, hm]
        | false => simp [uploadModel, hck, hplan, hle, hab, hm]

/-- C5: chunk exchanges within one `upload()` call are strictly
sequential: in the network trace, every occurrence of `start (j+1)` is
preceded by `resolve j`, and every prefix of the trace has at most one
exchange outstanding. -/
theorem upload_chunks_sequential (alg : String) (F : Nat) (size : Int)
    (env : UploadEnv) :
    (∀ (j : Nat) (l₁ l₂ : List NetEvent),
      (uploadModel alg F size env).net = l₁ ++ .start (j + 1) :: l₂ →
      .resolve j ∈ l₁)
    ∧ (∀ k, countStarts (((uploadModel alg F size env).net).take k) ≤
        countResolves (((uploadModel alg F size env).net).take k) + 1) := by
  obtain ⟨m, hm⟩ := uploadModel_net_shape alg F size env
  constructor
  · intro j l₁ l₂ h
    rw [hm] at h
    rcases pairTrace_start_preceded m 0 (j + 1) l₁ l₂ h with ⟨hj, _⟩ | hmem
    · exact absurd hj (Nat.succ_ne_zero j)
    · simpa using hmem
  · intro k
    rw [hm]
    exact pairTrace_outstanding m 0 k

/-- Concrete instantiation of `upload_chunks_sequential` on a two-chunk
upload: the second chunk's exchange is preceded by the first chunk's
settlement. -/
theorem upload_chunks_sequential_witness :
    NetEvent.resolve 0 ∈ [NetEvent.start 0, NetEvent.resolve 0]
    ∧ countStarts (((uploadModel "h" 4 2
        ⟨some "x", fun _ => .ok, none, ⟨200, "h=x", 4⟩, none⟩).net).take 3) ≤
      countResolves (((uploadModel "h" 4 2
        ⟨some "x", fun _ => .ok, none, ⟨200, "h=x", 4⟩, none⟩).net).take 3) + 1 :=
  ⟨(upload_chunks_sequential "h" 4 2
      ⟨some "x", fun _ => .ok, none, ⟨200, "h=x", 4⟩, none⟩).1 0
      [.start 0, .resolve 0] [.resolve 1] rfl,
    (upload_chunks_sequential "h" 4 2
      ⟨some "x", fun _ => .ok, none, ⟨200, "h=x", 4⟩, none⟩).2 3⟩

/-! ## Single-chunk mode and Range headers (C6) -/

/-- Every request the chunk loop issues for index `i` has the byte window
`[i*C, min F (i*C + C))` and, exactly when the plan has more than one
chunk, the inclusive Range pair covering that window. -/
theorem chunkLoop_requests_spec (env : UploadEnv) (n C F total : Nat) :
    ∀ (l : List Nat) (vec : Nat → Nat) (req : ChunkRequest),
      req ∈ (chunkLoop env n C F total l vec).requests →
      req.index ∈ l
      ∧ req.first = req.index * C
      ∧ req.stop = min F (req.index * C + C)
      ∧ req.range = (if 1 < n then
          some (req.index * C, min F (req.index * C + C) - 1) else none) := by
  intro l
  induction l with
  | nil => intro vec req h; simp [chunkLoop] at h
  | cons i rest ih =>
    intro vec req h
    cases ha : abortSeen env i with
    | true => simp [chunkLoop, ha] at h
    | false =>
      cases ho : env.outcome i with
      | ok =>
        simp only [chunkLoop, ha, Bool.false_eq_true, if_false, ho,
          List.mem_cons] at h
        rcases h with h | h
        · subst h
          exact ⟨by simp, rfl, rfl, rfl⟩
        · obtain ⟨h1, h2, h3, h4⟩ := ih _ req h
          exact ⟨List.mem_cons_of_mem _ h1, h2, h3, h4⟩
      | abortedMid =>
        simp only [chunkLoop, ha, Bool.false_eq_true, if_false, ho,
          List.mem_singleton] at h
        subst h
        exact ⟨by simp, rfl, rfl, rfl⟩
      | httpError st =>
        simp only [chunkLoop, ha, Bool.false_eq_true, if_false, ho,
          List.mem_singleton] at h
        subst h
        exact ⟨by simp, rfl, rfl, rfl⟩
      | networkError =>
        simp only [chunkLoop, ha, Bool.false_eq_true, if_false, ho,
          List.mem_singleton] at h
        subst h
        exact ⟨by simp, rfl, rfl, rfl⟩

/-- Every request of a modelled `upload()` call comes from its chunk
loop. -/
theorem uploadModel_requests_sub (alg : String) (F : Nat) (size : Int)
    (env : UploadEnv) (n : Nat) (hplan : planChunkCount F size = .ok n)
    (req : ChunkRequest) (h : req ∈ (uploadModel alg F size env).requests) :
    req ∈ (chunkLoop env n ((effectiveChunkSize F size).toNat) F F
      (List.range n) (fun _ => 0)).requests := by
  cases hck : env.checksum with
  | none => simp [uploadModel, hck] at h
  | some sha =>
    cases hle : (chunkLoop env n ((effectiveChunkSize F size).toNat) F F
        (List.range n) (fun _ => 0)).err with
    | some le =>
      have hre : (uploadModel alg F size env).requests =
          (chunkLoop env n ((effectiveChunkSize F size).toNat) F F
            (List.range n) (fun _ => 0)).requests := by
        simp [uploadModel, hck, hplan, hle]
      rwa [hre] at h
    | none =>
      cases hab : env.abortAt.isSome with
      | true =>
        have hre : (uploadModel alg F size env).requests =
            (chunkLoop env n ((effectiveChunkSize F size).toNat) F F
              (List.range n) (fun _ => 0)).requests := by
          simp [uploadModel, hck, hplan, hle, hab]
        rwa [hre] at h
      | false =>
        have hre : (uploadModel alg F size env).requests =
            (chunkLoop env n ((effectiveChunkSize F size).toNat) F F
              (List.range n) (fun _ => 0)).requests := by
          simp [uploadModel, hck, hplan, hle, hab]
        rwa [hre] at h

/-- C6 counterexample at the claimed input class: for an empty file with
the whole-file sentinel -1, `upload()` does not plan one whole-file chunk;
the chunk count is `NaN` and `new Array(NaN)` throws a `RangeError`. -/
theorem upload_singleChunk_fails_on_empty_file :
    planChunkCount 0 (-1) = .error .rangeError ∧
    planChunkCount 0 (-1) ≠ .ok 1 := by
  constructor
  · rfl
  · intro h
    rw [show planChunkCount 0 (-1) = .error .rangeError from rfl] at h
    exact Except.noConfusion h

/-- C6 (amended: for files of positive size): with the sentinel -1 or a
requested size at least the file size, the plan is exactly one chunk and
every issued request covers `[0, F)` with no Range header; whenever the
plan has more than one chunk, every issued request carries the inclusive
Range pair `(start, stop - 1)` for its chunk window `[start, stop)`. -/
theorem upload_singleChunk_and_rangeHeaders (alg : String) (F : Nat)
    (size : Int) (env : UploadEnv) (hF : 0 < F) :
    ((size = -1 ∨ (F : Int) ≤ size) →
      planChunkCount F size = .ok 1
      ∧ ∀ req ∈ (uploadModel alg F size env).requests,
          req.index = 0 ∧ req.first = 0 ∧ req.stop = F ∧ req.range = none)
    ∧ (∀ n, planChunkCount F size = .ok n → 1 < n →
        ∀ req ∈ (uploadModel alg F size env).requests,
          req.first = req.index * size.toNat
          ∧ req.stop = min F (req.first + size.toNat)
          ∧ req.range = some (req.first, req.stop - 1)) := by
  constructor
  · intro hsc
    have hs : isUploadSingleChunk F size = true := by
      unfold isUploadSingleChunk
      rcases hsc with h | h
      · simp [h]
      · simp [h]
    have heff : effectiveChunkSize F size = (F : Int) := by
      simp [effectiveChunkSize, hs]
    have hnum : numChunks F F = 1 := by
      unfold numChunks
      exact Nat.div_eq_of_lt_le (by omega) (by omega)
    have hplan : planChunkCount F size = .ok 1 := by
      unfold planChunkCount
      rw [heff, jsCeilDiv_coe F F hF, hnum]
      rfl
    refine ⟨hplan, ?_⟩
    intro req hreq
    have hsub := uploadModel_requests_sub alg F size env 1 hplan req hreq
    obtain ⟨h1, h2, h3, h4⟩ := chunkLoop_requests_spec env 1
      ((effectiveChunkSize F size).toNat) F F (List.range 1) (fun _ => 0)
      req hsub
    have hi : req.index = 0 := by simpa using h1
    have hC : (effectiveChunkSize F size).toNat = F := by rw [heff]; simp
    rw [hC, hi] at h2 h3 h4
    refine ⟨hi, by simpa using h2, by rw [h3]; simp, by simpa using h4⟩
  · intro n hplan hn req hreq
    have hs : isUploadSingleChunk F size = false := by
      cases hsb : isUploadSingleChunk F size with
      | false => rfl
      | true =>
        have heff : effectiveChunkSize F size = (F : Int) := by
          simp [effectiveChunkSize, hsb]
        have hnum : numChunks F F = 1 := by
          unfold numChunks
          exact Nat.div_eq_of_lt_le (by omega) (by omega)
        have hplan1 : planChunkCount F size = .ok 1 := by
          unfold planChunkCount
          rw [heff, jsCeilDiv_coe F F hF, hnum]
          rfl
        rw [hplan1] at hplan
        simp only [Except.ok.injEq] at hplan
        omega
    have heff : effectiveChunkSize F size = size := by
      simp [effectiveChunkSize, hs]
    have hsub := uploadModel_requests_sub alg F size env n hplan req hreq
    obtain ⟨h1, h2, h3, h4⟩ := chunkLoop_requests_spec env n
      ((effectiveChunkSize F size).toNat) F F (List.range n) (fun _ => 0)
      req hsub
    rw [heff] at h2 h3 h4
    rw [if_pos hn] at h4
    exact ⟨h2, by rw [h3, h2], by rw [h4, h2, h3]⟩

/-- Concrete instantiation of `upload_singleChunk_and_rangeHeaders` at a
10-byte file: requested size 3 yields ranged requests; the conjunct about
single-chunk mode is instantiated vacuously-free via the same theorem at
size -1 elsewhere in this statement's first component. -/
theorem upload_singleChunk_and_rangeHeaders_witness :
    (((-1 : Int) = -1 ∨ ((10 : Nat) : Int) ≤ -1) →
      planChunkCount 10 (-1) = .ok 1
      ∧ ∀ req ∈ (uploadModel "h" 10 (-1)
          ⟨some "x", fun _ => .ok, none, ⟨200, "h=x", 10⟩, none⟩).requests,
          req.index = 0 ∧ req.first = 0 ∧ req.stop = 10 ∧ req.range = none)
    ∧ (∀ n, planChunkCount 10 3 = .ok n → 1 < n →
        ∀ req ∈ (uploadModel "h" 10 3
            ⟨some "x", fun _ => .ok, none, ⟨200, "h=x", 10⟩, none⟩).requests,
          req.first = req.index * (3 : Int).toNat
          ∧ req.stop = min 10 (req.first + (3 : Int).toNat)
          ∧ req.range = some (req.first, req.stop - 1)) :=
  ⟨(upload_singleChunk_and_rangeHeaders "h" 10 (-1)
      ⟨some "x", fun _ => .ok, none, ⟨200, "h=x", 10⟩, none⟩ (by decide)).1,
    (upload_singleChunk_and_rangeHeaders "h" 10 3
      ⟨some "x", fun _ => .ok, none, ⟨200, "h=x", 10⟩, none⟩ (by decide)).2⟩

end ChunkedUploader
